import Mathlib

/-!
Verification development for the RAG PDF pipeline and its frontend.

The repository ships a TypeScript frontend (`rag-pdf-frontend`) whose code is
embedded below directly from the source, and a Python RAG backend
(`RAG_pdf_data/src/rag`) whose module code is not part of the sources here;
for those components the definitions are modelled from the specification, as
marked in each doc comment.

Text is modelled as `List Char`; machine integers as `Int`/`Nat`.
-/

set_option maxHeartbeats 1000000

/-! ## Words and word counting

Used by the answer engine's defensive `max_words` truncation. -/

/-- Splits a character list into space-separated words; `acc` holds the
current word, reversed. -/
def wordsAux : List Char → List Char → List (List Char)
  | [], acc => if acc = [] then [] else [acc.reverse]
  | c :: cs, acc =>
    if c = ' ' then
      if acc = [] then wordsAux cs [] else acc.reverse :: wordsAux cs []
    else wordsAux cs (c :: acc)

/-- The space-separated words of a text. -/
def wordsOf (s : List Char) : List (List Char) := wordsAux s []

/-- Number of space-separated words in a text. -/
def wordCount (s : List Char) : Nat := (wordsOf s).length

/-- Joins words back into a text with single spaces. -/
def joinWords : List (List Char) → List Char
  | [] => []
  | [w] => w
  | w :: ws => w ++ ' ' :: joinWords ws

/-- Keeps only the first `n` words of a text. -/
def truncWords (n : Nat) (s : List Char) : List Char :=
  joinWords ((wordsOf s).take n)

theorem wordsAux_mem_spec : ∀ (l acc : List Char), ' ' ∉ acc →
    ∀ w ∈ wordsAux l acc, w ≠ [] ∧ ' ' ∉ w := by
  intro l
  induction l with
  | nil =>
    intro acc hacc w hw
    by_cases h : acc = []
    · simp [wordsAux, h] at hw
    · simp [wordsAux, h] at hw
      subst hw
      constructor
      · simpa using h
      · simpa using hacc
  | cons c cs ih =>
    intro acc hacc w hw
    by_cases hc : c = ' '
    · by_cases h : acc = []
      · simp [wordsAux, hc, h] at hw
        exact ih [] (by simp) w hw
      · simp [wordsAux, hc, h] at hw
        rcases hw with hw | hw
        · subst hw
          exact ⟨by simpa using h, by simpa using hacc⟩
        · exact ih [] (by simp) w hw
    · simp [wordsAux, hc] at hw
      refine ih (c :: acc) ?_ w hw
      intro hmem
      rcases List.mem_cons.mp hmem with h | h
      · exact hc h.symm
      · exact hacc h

theorem wordsOf_mem_spec (s : List Char) : ∀ w ∈ wordsOf s, w ≠ [] ∧ ' ' ∉ w :=
  wordsAux_mem_spec s [] (by simp)

theorem wordsAux_space (l acc : List Char) :
    wordsAux (' ' :: l) acc =
      if acc = [] then wordsAux l [] else acc.reverse :: wordsAux l [] := by
  simp [wordsAux]

theorem wordsAux_append (w : List Char) (hw : ' ' ∉ w) :
    ∀ (l acc : List Char), wordsAux (w ++ l) acc = wordsAux l (w.reverse ++ acc) := by
  induction w with
  | nil => intro l acc; simp
  | cons c w' ih =>
    intro l acc
    have hc : c ≠ ' ' := fun h => hw (by simp [h])
    have hw' : ' ' ∉ w' := fun h => hw (List.mem_cons_of_mem _ h)
    have hstep : wordsAux ((c :: w') ++ l) acc = wordsAux (w' ++ l) (c :: acc) := by
      simp [wordsAux, hc]
    rw [hstep, ih hw' l (c :: acc)]
    simp

theorem wordsOf_joinWords : ∀ (ws : List (List Char)),
    (∀ w ∈ ws, w ≠ [] ∧ ' ' ∉ w) → wordsOf (joinWords ws) = ws := by
  intro ws
  induction ws with
  | nil => intro _; rfl
  | cons w tail ih =>
    intro h
    obtain ⟨hne, hnosp⟩ := h w (List.mem_cons_self w tail)
    cases tail with
    | nil =>
      show wordsAux (joinWords [w]) [] = [w]
      have : joinWords [w] = w ++ [] := by simp [joinWords]
      rw [this, wordsAux_append w hnosp [] []]
      simp [wordsAux, hne]
    | cons w2 tail2 =>
      have hjoin : joinWords (w :: w2 :: tail2) = w ++ ' ' :: joinWords (w2 :: tail2) := rfl
      show wordsAux (joinWords (w :: w2 :: tail2)) [] = w :: w2 :: tail2
      rw [hjoin, wordsAux_append w hnosp _ [], List.append_nil, wordsAux_space]
      have hrevne : w.reverse ≠ [] := by simpa using hne
      rw [if_neg hrevne, List.reverse_reverse]
      have htail := ih (fun x hx => h x (List.mem_cons_of_mem _ hx))
      rw [show wordsAux (joinWords (w2 :: tail2)) [] = wordsOf (joinWords (w2 :: tail2)) from rfl,
        htail]

theorem wordCount_truncWords (n : Nat) (s : List Char) :
    wordCount (truncWords n s) ≤ n := by
  unfold wordCount truncWords
  rw [wordsOf_joinWords ((wordsOf s).take n)
      (fun w hw => wordsOf_mem_spec s w (List.mem_of_mem_take hw))]
  exact List.length_take_le n (wordsOf s)

/-! ## Chunker

The backend chunker module (`RAG_pdf_data/src/rag/chunker.py`) is not among
the sources; it is modelled from the specification, section 4.2. -/

/-- Modelled from the spec: sliding-window chunk production with hard cuts
(lookback window of zero). Emits `take size` of the remaining text and
advances by `stride = size - overlap` until the remainder fits in one chunk.
`fuel` bounds the recursion and is instantiated with the text length. -/
def splitGo (size stride : Nat) : Nat → List Char → List (List Char)
  | 0, text => [text]
  | fuel + 1, text =>
    if text.length ≤ size then [text]
    else text.take size :: splitGo size stride fuel (text.drop stride)

/-- Modelled from the spec: `Chunker.split(text, cfg)` fails with a
configuration error when `chunk_overlap >= chunk_size`, and otherwise
produces the ordered chunk sequence. -/
def Chunker.split (size overlap : Nat) (text : List Char) : Except String (List (List Char)) :=
  if overlap < size then .ok (splitGo size (size - overlap) text.length text)
  else .error "ConfigError: chunk_overlap must be smaller than chunk_size"

/-- Concatenates chunks after removing the leading `ov` characters of every
chunk but the first: the reconstruction of the source text. -/
def joinOverlap (ov : Nat) : List (List Char) → List Char
  | [] => []
  | c :: cs => c ++ (cs.map (List.drop ov)).flatten

theorem splitGo_join_map_drop (size ov : Nat) (hov : ov < size) :
    ∀ (fuel : Nat) (text : List Char), text.length ≤ fuel + size →
      (List.map (List.drop ov) (splitGo size (size - ov) fuel text)).flatten = text.drop ov := by
  intro fuel
  induction fuel with
  | zero =>
    intro text hlen
    simp [splitGo]
  | succ n ih =>
    intro text hlen
    by_cases hfit : text.length ≤ size
    · simp [splitGo, hfit]
    · have hrec := ih (text.drop (size - ov)) (by simp; omega)
      simp only [splitGo, if_neg hfit, List.map_cons, List.flatten_cons, hrec]
      rw [List.drop_take, List.drop_drop]
      have he : List.drop (size - ov + ov) text = List.drop (size - ov) (List.drop ov text) := by
        rw [List.drop_drop]; congr 1; omega
      rw [he, List.take_append_drop]

theorem splitGo_cons (size stride : Nat) :
    ∀ (fuel : Nat) (text : List Char), text.length ≤ fuel + size →
      ∃ rest, splitGo size stride fuel text = text.take size :: rest := by
  intro fuel
  cases fuel with
  | zero =>
    intro text hlen
    refine ⟨[], ?_⟩
    simp only [splitGo]
    rw [List.take_of_length_le (by omega)]
  | succ n =>
    intro text _
    by_cases hfit : text.length ≤ size
    · exact ⟨[], by simp [splitGo, hfit, List.take_of_length_le hfit]⟩
    · refine ⟨splitGo size stride n (text.drop stride), ?_⟩
      simp [splitGo, hfit]

theorem splitGo_reconstruct (size ov : Nat) (hov : ov < size) :
    ∀ (fuel : Nat) (text : List Char), text.length ≤ fuel + size →
      joinOverlap ov (splitGo size (size - ov) fuel text) = text := by
  intro fuel
  cases fuel with
  | zero =>
    intro text hlen
    simp [splitGo, joinOverlap]
  | succ n =>
    intro text hlen
    by_cases hfit : text.length ≤ size
    · simp [splitGo, hfit, joinOverlap]
    · have hrec := splitGo_join_map_drop size ov hov n (text.drop (size - ov)) (by simp; omega)
      simp only [splitGo, if_neg hfit, joinOverlap, hrec]
      rw [List.drop_drop]
      have h4 : size - ov + ov = size := by omega
      rw [h4, List.take_append_drop]

theorem splitGo_length_le (size stride : Nat) (hs : 0 < stride) :
    ∀ (fuel : Nat) (text : List Char), text.length ≤ fuel + size →
      ∀ c ∈ splitGo size stride fuel text, c.length ≤ size := by
  intro fuel
  induction fuel with
  | zero =>
    intro text hlen c hc
    simp [splitGo] at hc
    subst hc; omega
  | succ n ih =>
    intro text hlen c hc
    by_cases hfit : text.length ≤ size
    · simp [splitGo, hfit] at hc
      subst hc; omega
    · simp only [splitGo, if_neg hfit, List.mem_cons] at hc
      rcases hc with hc | hc
      · subst hc; simp
      · exact ih (text.drop stride) (by simp; omega) c hc

theorem splitGo_chain (size ov : Nat) (hov : ov < size) :
    ∀ (fuel : Nat) (text : List Char), text.length ≤ fuel + size →
      List.Chain' (fun a b => a.length = size ∧
        a.drop (size - ov) = b.take ov ∧ ov ≤ b.length)
        (splitGo size (size - ov) fuel text) := by
  intro fuel
  induction fuel with
  | zero =>
    intro text hlen
    simp [splitGo]
  | succ n ih =>
    intro text hlen
    by_cases hfit : text.length ≤ size
    · simp [splitGo, hfit]
    · have hlen2 : (text.drop (size - ov)).length ≤ n + size := by simp; omega
      obtain ⟨rest, hrest⟩ := splitGo_cons size (size - ov) n (text.drop (size - ov)) hlen2
      simp only [splitGo, if_neg hfit]
      rw [List.chain'_cons']
      refine ⟨?_, ih (text.drop (size - ov)) hlen2⟩
      intro b hb
      rw [hrest] at hb
      simp only [List.head?_cons, Option.mem_def, Option.some.injEq] at hb
      subst hb
      refine ⟨by simp; omega, ?_, ?_⟩
      · rw [List.drop_take, List.take_take]
        have h1 : size - (size - ov) = ov := by omega
        have h2 : min ov size = ov := by omega
        rw [h1, h2]
      · simp; omega

/-! ## Vector index

The backend store module (`RAG_pdf_data/src/rag/store.py`, ChromaDB with one
collection per `doc_id`) is not among the sources; it is modelled from the
specification, section 4.4. -/

/-- Modelled from the spec: a chunk held by the vector index, carrying its
stable ordering index, text and embedding vector. -/
structure IndexedChunk where
  chunkId : Nat
  text : List Char
  vec : List Int
deriving DecidableEq, Repr

/-- Modelled from the spec: the vector index, a map from `doc_id` to that
document's collection of indexed chunks. -/
def VectorIndex := List (String × List IndexedChunk)

/-- The collection currently held for `docId`, if any. -/
def collOf (idx : VectorIndex) (docId : String) : Option (List IndexedChunk) :=
  match idx with
  | [] => none
  | (d, coll) :: rest => if d = docId then some coll else collOf rest docId

/-- Modelled from the spec: `upsert(doc_id, chunks, vectors)` replaces the
entire collection for `doc_id` (replace, not merge). -/
def VectorIndex.upsert (idx : VectorIndex) (docId : String)
    (chunks : List IndexedChunk) : VectorIndex :=
  (docId, chunks) :: idx.filter (fun p => p.1 != docId)

/-- Inner-product similarity between a query vector and a stored vector. -/
def simScore (qv v : List Int) : Int := (List.zipWith (· * ·) qv v).sum

/-- Best-match-first ordering on indexed chunks for a query vector: higher
similarity first, ties broken by lower `chunkId`. -/
def chunkBetter (qv : List Int) (a b : IndexedChunk) : Prop :=
  simScore qv b.vec < simScore qv a.vec ∨
    (simScore qv a.vec = simScore qv b.vec ∧ a.chunkId ≤ b.chunkId)

instance (qv : List Int) : DecidableRel (chunkBetter qv) := fun a b => by
  unfold chunkBetter
  infer_instance

instance (qv : List Int) : IsTotal IndexedChunk (chunkBetter qv) where
  total a b := by
    unfold chunkBetter
    rcases lt_trichotomy (simScore qv a.vec) (simScore qv b.vec) with h | h | h
    · right; left; exact h
    · rcases Nat.le_total a.chunkId b.chunkId with hc | hc
      · left; right; exact ⟨h, hc⟩
      · right; right; exact ⟨h.symm, hc⟩
    · left; left; exact h

instance (qv : List Int) : IsTrans IndexedChunk (chunkBetter qv) where
  trans a b c hab hbc := by
    unfold chunkBetter at *
    rcases hab with hab | ⟨hab, hab'⟩ <;> rcases hbc with hbc | ⟨hbc, hbc'⟩
    · left; exact hbc.trans hab
    · left; exact hbc ▸ hab
    · left; exact hab ▸ hbc
    · right; exact ⟨hab.trans hbc, hab'.trans hbc'⟩

/-- Modelled from the spec: `query(doc_id, query_vector, k)` returns the top
`k` chunks of the document's collection, best-match first, ties by lower
`chunkId`; empty when `doc_id` has no collection. -/
def VectorIndex.query (idx : VectorIndex) (docId : String) (qv : List Int)
    (k : Nat) : List IndexedChunk :=
  match collOf idx docId with
  | none => []
  | some coll => (List.insertionSort (chunkBetter qv) coll).take k

/-- Modelled from the spec: `delete(doc_id)` removes the collection for
`doc_id`; a no-op when it is absent. -/
def VectorIndex.delete (idx : VectorIndex) (docId : String) : VectorIndex :=
  idx.filter (fun p => p.1 != docId)

theorem collOf_upsert_self (idx : VectorIndex) (docId : String)
    (chunks : List IndexedChunk) :
    collOf (idx.upsert docId chunks) docId = some chunks := by
  simp [VectorIndex.upsert, collOf]

theorem query_upsert_eq (idx : VectorIndex) (docId : String)
    (chunks : List IndexedChunk) (qv : List Int) (k : Nat) :
    (idx.upsert docId chunks).query docId qv k =
      (List.insertionSort (chunkBetter qv) chunks).take k := by
  simp [VectorIndex.query, collOf_upsert_self]

/-! ## Registry and answer engine

The backend answer engine (`RAG_pdf_data/src/rag/qa.py`) and the registry
read contract are not among the sources; they are modelled from the
specification, sections 4.7 and 6. -/

/-- Modelled from the spec: the registry record for a document. -/
structure DocumentRecord where
  filename : String
  is_cv : Bool
  summary : Option String
deriving DecidableEq, Repr

/-- Modelled from the spec: the document registry, mapping `doc_id` to its
record. -/
def Registry := List (String × DocumentRecord)

/-- Registry read: `get(doc_id) -> DocumentRecord | absent`. -/
def Registry.get (reg : Registry) (docId : String) : Option DocumentRecord :=
  match reg with
  | [] => none
  | (d, r) :: rest => if d = docId then some r else Registry.get rest docId

/-- The `is_cv` flag of a document, false when the document is absent. -/
def isCvOf (reg : Registry) (docId : String) : Bool :=
  ((reg.get docId).map DocumentRecord.is_cv).getD false

/-- Modelled from the spec: a deterministic embedder mapping text to a
fixed-per-configuration vector; the question is embedded with the same
configuration used at ingestion. -/
def embedText (s : List Char) : List Int :=
  s.map (fun c => Int.ofNat c.toNat)

/-- Modelled from the spec: the retrieval depth, fixed by configuration. -/
def topK : Nat := 4

/-- Modelled from the spec: the deterministic answer returned when zero
chunks are retrieved, produced without calling the generation backend. -/
def noInfoAnswer : List Char :=
  ('N' :: 'o' :: ' ' :: "information available for this document.".toList)

/-- Modelled from the spec: the grounded prompt built from the retrieved
chunks, the question, and the effective word ceiling when present. -/
def buildPrompt (chunks : List IndexedChunk) (question : List Char)
    (maxWords : Option Nat) : List Char :=
  (chunks.map IndexedChunk.text).flatten ++ question ++
    (match maxWords with
     | some w => ' ' :: (Nat.toDigits 10 w)
     | none => [])

/-- Modelled from the spec: `answer(doc_id, question, max_words?)`. Embeds
the question, retrieves the top-k chunks for `doc_id`; with zero retrieved
chunks returns the deterministic no-information answer without invoking the
generation backend `llm`; otherwise calls the backend on the grounded prompt.
`max_words` is honored only when the document `is_cv`, and the returned text
is defensively truncated to at most `max_words` words. -/
def answer (llm : List Char → List Char) (idx : VectorIndex) (reg : Registry)
    (docId : String) (question : List Char) (maxWords : Option Nat) : List Char :=
  let chunks := idx.query docId (embedText question) topK
  if chunks = [] then noInfoAnswer
  else
    let mw := if isCvOf reg docId then maxWords else none
    let generated := llm (buildPrompt chunks question mw)
    match mw with
    | some w => truncWords w generated
    | none => generated

/-! ## Frontend API client

Embedded from `rag-pdf-frontend/src/api/client.ts`. -/

/-- An HTTP response as seen by `request` in `client.ts`: the ok flag and
status text of the fetch response, whether the body parses as JSON
(`parses`), the parsed value when it does, and the `detail` field of the
parsed body when present. -/
structure HttpResponse (T : Type) where
  ok : Bool
  statusText : String
  parses : Bool
  value : T
  detail : Option String

/-- Embeds `request` from `client.ts`: on a non-ok response, parse the body
(falling back to `{detail: statusText}` when parsing fails) and throw an
error carrying `detail`, or "Request failed" when `detail` is absent; on an
ok response return the parsed JSON body. -/
def request {T : Type} (res : HttpResponse T) : Except String T :=
  if res.ok then
    if res.parses then .ok res.value
    else .error "Unexpected token in JSON"
  else
    let errDetail : Option String :=
      if res.parses then res.detail else some res.statusText
    .error (errDetail.getD "Request failed")

/-! ## Upload zone

Embedded from `rag-pdf-frontend/src/components/UploadZone.tsx`. -/

/-- Outcome of offering a file to the upload zone: silently ignored, rejected
with an error message, or handed to the `onUpload` callback. -/
inductive UploadOutcome
  | ignored
  | rejected (msg : String)
  | uploaded
deriving DecidableEq, Repr

/-- Whether a file name, lowercased, ends with ".pdf"
(`file.name.toLowerCase().endsWith('.pdf')`). -/
def isPdfName (name : List Char) : Bool :=
  List.isSuffixOf ('.' :: 'p' :: 'd' :: 'f' :: []) (name.map Char.toLower)

/-- Embeds `handleFile` from `UploadZone.tsx`: a null file, a disabled zone
or an in-flight upload returns silently; a non-PDF extension sets the error
"Only PDF files are allowed." without uploading; otherwise `onUpload` is
invoked. -/
def handleFile (file : Option (List Char)) (disabled uploading : Bool) :
    UploadOutcome :=
  match file with
  | none => .ignored
  | some name =>
    if disabled || uploading then .ignored
    else if !(isPdfName name) then .rejected "Only PDF files are allowed."
    else .uploaded

/-! ## Home page

Embedded from the home page source (`src/unnamed/part_002`): document list
refresh, selection, and the chat message list cleared on selection change. -/

/-- A document summary as listed by the API (`DocumentSummary`). -/
structure DocumentSummary where
  doc_id : String
  filename : String
  is_cv : Bool
  summary : Option String
deriving DecidableEq, Repr

/-- Chat message roles. -/
inductive Role
  | user
  | assistant
deriving DecidableEq, Repr

/-- A chat message; `origin` is ghost state recording the `doc_id` the
message was produced for (the selected document captured by
`handleSendMessage` when the ask was issued). -/
structure TaggedMessage where
  role : Role
  content : String
  origin : String
deriving DecidableEq, Repr

/-- An ask request in flight: the captured `doc_id` and the question. -/
structure PendingAsk where
  docId : String
  question : String
deriving DecidableEq, Repr

/-- The home page state: fetched document list, selected document id, chat
messages, and asks in flight. -/
structure HomeState where
  documents : List DocumentSummary
  selectedDocId : String
  messages : List TaggedMessage
  pending : List PendingAsk
deriving DecidableEq, Repr

/-- Embeds the success path of `fetchDocs`: store the fetched list, and clear
the selection when `captured` is not in the list
(`if (!list.some((d) => d.doc_id === selectedDocId)) setSelectedDocId('')`).
`captured` is the `selectedDocId` the `fetchDocs` closure captured at the
render where it was created; `s.selectedDocId` is the selection at the time
the awaited refresh completes, which differs from `captured` when the user
changed the selection while the refresh was in flight. When the membership
check passes, no `setSelectedDocId` call is made and the current selection is
left as it is. -/
def fetchDocsSuccess (s : HomeState) (captured : String)
    (list : List DocumentSummary) : HomeState :=
  { s with
    documents := list
    selectedDocId :=
      if list.any (fun d => d.doc_id == captured) then s.selectedDocId
      else "" }

/-- Embeds a selection change plus the `useEffect(() => setMessages([]),
[selectedDocId])` that clears the chat on every change of the selected id;
selecting the already-selected id re-renders nothing. -/
def selectDoc (s : HomeState) (id : String) : HomeState :=
  if id = s.selectedDocId then s
  else { s with selectedDocId := id, messages := [] }

/-- Embeds the synchronous prefix of `handleSendMessage`: with no selection
it returns immediately; otherwise it appends the user message and issues the
ask for the captured selected document. -/
def sendQuestion (s : HomeState) (q : String) : HomeState :=
  if s.selectedDocId = "" then s
  else
    { s with
      messages := s.messages ++ [⟨Role.user, q, s.selectedDocId⟩]
      pending := s.pending ++ [⟨s.selectedDocId, q⟩] }

/-- Embeds the resolution of an in-flight ask in `handleSendMessage`: the
assistant message is appended to the current message list via the functional
updater `setMessages((m) => [...m, assistantMsg])`. -/
def resolveAsk (s : HomeState) (p : PendingAsk) (ans : String) : HomeState :=
  if p ∈ s.pending then
    { s with
      messages := s.messages ++ [⟨Role.assistant, ans, p.docId⟩]
      pending := s.pending.erase p }
  else s

/-! ## Helper lemmas about the answer engine -/

theorem answer_of_no_chunks (llm : List Char → List Char) (idx : VectorIndex)
    (reg : Registry) (docId : String) (q : List Char) (mw : Option Nat)
    (hc : idx.query docId (embedText q) topK = []) :
    answer llm idx reg docId q mw = noInfoAnswer := by
  simp [answer, hc]

theorem answer_cv_of_chunks (llm : List Char → List Char) (idx : VectorIndex)
    (reg : Registry) (docId : String) (q : List Char) (w : Nat)
    (hc : idx.query docId (embedText q) topK ≠ [])
    (hcv : isCvOf reg docId = true) :
    answer llm idx reg docId q (some w) =
      truncWords w (llm (buildPrompt (idx.query docId (embedText q) topK) q (some w))) := by
  simp [answer, hc, hcv]

theorem query_empty_of_collOf (idx : VectorIndex) (docId : String)
    (qv : List Int) (k : Nat)
    (h : collOf idx docId = none ∨ collOf idx docId = some []) :
    idx.query docId qv k = [] := by
  rcases h with h | h <;> simp [VectorIndex.query, h]

theorem wordCount_noInfoAnswer : wordCount noInfoAnswer = 6 := by decide

/-! ## Claim theorems -/

/-- C1: on a CV document, `answer(doc_id, question, max_words = 50)` returns
text of at most 50 words; in general, with chunks retrieved and `max_words`
provided on a CV document, the returned text is defensively truncated to at
most `max_words` words whatever the generation backend returns. -/
theorem answer_cv_max_words (llm : List Char → List Char) (idx : VectorIndex)
    (reg : Registry) (docId : String) (q : List Char)
    (hcv : isCvOf reg docId = true) :
    wordCount (answer llm idx reg docId q (some 50)) ≤ 50 ∧
      ∀ w : Nat, idx.query docId (embedText q) topK ≠ [] →
        wordCount (answer llm idx reg docId q (some w)) ≤ w := by
  constructor
  · by_cases hc : idx.query docId (embedText q) topK = []
    · rw [answer_of_no_chunks llm idx reg docId q (some 50) hc,
        wordCount_noInfoAnswer]
      omega
    · rw [answer_cv_of_chunks llm idx reg docId q 50 hc hcv]
      exact wordCount_truncWords 50 _
  · intro w hc
    rw [answer_cv_of_chunks llm idx reg docId q w hc hcv]
    exact wordCount_truncWords w _

theorem answer_cv_max_words_witness :
    isCvOf [("d", ⟨"cv.pdf", true, none⟩)] "d" = true ∧
      wordCount (answer id ([] : VectorIndex) [("d", ⟨"cv.pdf", true, none⟩)]
        "d" "What is the most recent role".toList (some 50)) ≤ 50 :=
  ⟨by decide,
    (answer_cv_max_words id ([] : VectorIndex) [("d", ⟨"cv.pdf", true, none⟩)]
      "d" "What is the most recent role".toList (by decide)).1⟩

/-- C2: after re-ingesting `doc_id` (an `upsert` replacing the collection),
every chunk retrievable by any query against `doc_id` belongs to the new
chunk set: nothing from the prior version remains retrievable. -/
theorem reprocess_replaces_collection (idx : VectorIndex) (docId : String)
    (newChunks : List IndexedChunk) (qv : List Int) (k : Nat)
    (c : IndexedChunk)
    (hc : c ∈ (idx.upsert docId newChunks).query docId qv k) :
    c ∈ newChunks := by
  rw [query_upsert_eq] at hc
  exact (List.mem_insertionSort (chunkBetter qv)).mp (List.mem_of_mem_take hc)

theorem reprocess_replaces_collection_witness :
    (⟨0, "new".toList, [1]⟩ : IndexedChunk) ∈
      ((VectorIndex.upsert [("d", [⟨0, "old".toList, [1]⟩])] "d"
        [⟨0, "new".toList, [1]⟩]).query "d" [1] 2) ∧
      (⟨0, "new".toList, [1]⟩ : IndexedChunk) ∈ [(⟨0, "new".toList, [1]⟩ : IndexedChunk)] := by
  have hmem : (⟨0, "new".toList, [1]⟩ : IndexedChunk) ∈
      ((VectorIndex.upsert [("d", [⟨0, "old".toList, [1]⟩])] "d"
        [⟨0, "new".toList, [1]⟩]).query "d" [1] 2) := by
    rw [query_upsert_eq]
    decide
  exact ⟨hmem, reprocess_replaces_collection _ "d" _ [1] 2 _ hmem⟩

/-- C3: on a `doc_id` with no vector collection (or an empty one), `answer`
returns the deterministic no-information answer for every generation backend
and every `max_words`, rather than failing. -/
theorem answer_no_index (idx : VectorIndex) (reg : Registry) (docId : String)
    (q : List Char)
    (h : collOf idx docId = none ∨ collOf idx docId = some []) :
    ∀ (llm : List Char → List Char) (mw : Option Nat),
      answer llm idx reg docId q mw = noInfoAnswer := by
  intro llm mw
  exact answer_of_no_chunks llm idx reg docId q mw
    (query_empty_of_collOf idx docId (embedText q) topK h)

theorem answer_no_index_witness :
    (collOf ([] : VectorIndex) "d" = none ∨ collOf ([] : VectorIndex) "d" = some []) ∧
      answer id ([] : VectorIndex) ([] : Registry) "d" "q".toList none = noInfoAnswer :=
  ⟨Or.inl rfl,
    answer_no_index ([] : VectorIndex) ([] : Registry) "d" "q".toList (Or.inl rfl) id none⟩

/-- C4: for every text and every valid configuration (`chunk_overlap <
chunk_size`), `Chunker.split` succeeds; the chunks reconstruct the text when
overlaps are removed and the chunks concatenated; no chunk exceeds
`chunk_size`; and every pair of consecutive chunks overlaps by exactly
`chunk_overlap` (so in particular every pair except possibly the final one
does). -/
theorem chunker_split_spec (size overlap : Nat) (text : List Char)
    (h : overlap < size) :
    ∃ cs, Chunker.split size overlap text = Except.ok cs ∧
      joinOverlap overlap cs = text ∧
      (∀ c ∈ cs, c.length ≤ size) ∧
      List.Chain' (fun a b => a.length = size ∧
        a.drop (size - overlap) = b.take overlap ∧ overlap ≤ b.length) cs := by
  refine ⟨splitGo size (size - overlap) text.length text, ?_, ?_, ?_, ?_⟩
  · simp [Chunker.split, h]
  · exact splitGo_reconstruct size overlap h text.length text (by omega)
  · exact splitGo_length_le size (size - overlap) (by omega) text.length text (by omega)
  · exact splitGo_chain size overlap h text.length text (by omega)

theorem chunker_split_spec_witness :
    2 < 5 ∧
      ∃ cs, Chunker.split 5 2 "abcdefgh".toList = Except.ok cs ∧
        joinOverlap 2 cs = "abcdefgh".toList ∧
        (∀ c ∈ cs, c.length ≤ 5) ∧
        List.Chain' (fun a b => a.length = 5 ∧
          a.drop 3 = b.take 2 ∧ 2 ≤ b.length) cs :=
  ⟨by decide, chunker_split_spec 5 2 "abcdefgh".toList (by decide)⟩

/-- C5: after `upsert(doc_id, chunks, vectors)`, `query(doc_id, qv, k)`
returns exactly `min k (collection size)` results, all of them chunks of the
upserted collection for `doc_id`, ordered best-match first with ties broken
by lower `chunkId`. -/
theorem query_after_upsert_spec (idx : VectorIndex) (docId : String)
    (chunks : List IndexedChunk) (qv : List Int) (k : Nat) :
    ((idx.upsert docId chunks).query docId qv k).length = min k chunks.length ∧
      (∀ c ∈ (idx.upsert docId chunks).query docId qv k, c ∈ chunks) ∧
      List.Sorted (chunkBetter qv) ((idx.upsert docId chunks).query docId qv k) := by
  rw [query_upsert_eq]
  refine ⟨?_, ?_, ?_⟩
  · rw [List.length_take, List.length_insertionSort]
  · intro c hc
    exact (List.mem_insertionSort (chunkBetter qv)).mp (List.mem_of_mem_take hc)
  · exact List.Pairwise.sublist (List.take_sublist _ _)
      (List.sorted_insertionSort (chunkBetter qv) chunks)

/-- C6: `max_words` has no effect on the answer when the target document is
not a CV: the interface accepts the value, and the produced answer equals
the one produced with no `max_words` at all. -/
theorem answer_non_cv_ignores_max_words (llm : List Char → List Char)
    (idx : VectorIndex) (reg : Registry) (docId : String) (q : List Char)
    (hcv : isCvOf reg docId = false) :
    ∀ w : Nat, answer llm idx reg docId q (some w) =
      answer llm idx reg docId q none := by
  intro w
  by_cases hc : idx.query docId (embedText q) topK = []
  · rw [answer_of_no_chunks llm idx reg docId q (some w) hc,
      answer_of_no_chunks llm idx reg docId q none hc]
  · simp [answer, hc, hcv]

theorem answer_non_cv_ignores_max_words_witness :
    isCvOf [("d", ⟨"notes.pdf", false, none⟩)] "d" = false ∧
      answer id ([] : VectorIndex) [("d", ⟨"notes.pdf", false, none⟩)] "d"
          "q".toList (some 5) =
        answer id ([] : VectorIndex) [("d", ⟨"notes.pdf", false, none⟩)] "d"
          "q".toList none :=
  ⟨by decide,
    answer_non_cv_ignores_max_words id ([] : VectorIndex)
      [("d", ⟨"notes.pdf", false, none⟩)] "d" "q".toList (by decide) 5⟩

/-- C7: a non-ok response makes `request` throw an error carrying the
server-provided `detail` (falling back to the status text when the body does
not parse, and to "Request failed" when `detail` is absent) and never
return a value; an ok response with a parseable body returns the parsed
JSON body. -/
theorem request_contract {T : Type} (res : HttpResponse T) :
    (res.ok = false →
      (∀ v : T, request res ≠ Except.ok v) ∧
      request res = Except.error
        (if res.parses then res.detail.getD "Request failed" else res.statusText)) ∧
    (res.ok = true → res.parses = true → request res = Except.ok res.value) := by
  constructor
  · intro hok
    constructor
    · intro v hv
      simp [request, hok] at hv
    · by_cases hp : res.parses <;> simp [request, hok, hp]
  · intro hok hp
    simp [request, hok, hp]

theorem request_contract_witness :
    request (⟨false, "Not Found", true, 0, some "Document not found"⟩ :
        HttpResponse Nat) = Except.error "Document not found" ∧
      request (⟨true, "OK", true, 7, none⟩ : HttpResponse Nat) = Except.ok 7 := by
  constructor
  · have h := (request_contract (⟨false, "Not Found", true, 0,
      some "Document not found"⟩ : HttpResponse Nat)).1 rfl
    simpa using h.2
  · exact (request_contract (⟨true, "OK", true, 7, none⟩ :
      HttpResponse Nat)).2 rfl rfl

/-- C8: the upload callback runs exactly when the file is non-null, the zone
is neither disabled nor uploading, and the lowercased file name ends with
".pdf"; when the zone is active and a non-null file fails the extension
check, the outcome is the error "Only PDF files are allowed." and no upload
call. -/
theorem upload_handleFile_spec (file : Option (List Char))
    (disabled uploading : Bool) :
    (handleFile file disabled uploading = UploadOutcome.uploaded ↔
      ∃ name, file = some name ∧ disabled = false ∧ uploading = false ∧
        isPdfName name = true) ∧
    (∀ name, file = some name → disabled = false → uploading = false →
      isPdfName name = false →
      handleFile file disabled uploading =
        UploadOutcome.rejected "Only PDF files are allowed.") := by
  constructor
  · cases file with
    | none => simp [handleFile]
    | some name =>
      cases disabled with
      | true => simp [handleFile]
      | false =>
        cases uploading with
        | true => simp [handleFile]
        | false =>
          by_cases hp : isPdfName name <;> simp [handleFile, hp]
  · intro name hfile hdis hup hpdf
    subst hfile hdis hup
    simp [handleFile, hpdf]

theorem upload_handleFile_spec_witness :
    handleFile (some "cv.PDF".toList) false false = UploadOutcome.uploaded ∧
      handleFile (some "notes.txt".toList) false false =
        UploadOutcome.rejected "Only PDF files are allowed." := by
  constructor
  · exact (upload_handleFile_spec (some "cv.PDF".toList) false false).1.mpr
      ⟨"cv.PDF".toList, rfl, rfl, rfl, by decide⟩
  · exact (upload_handleFile_spec (some "notes.txt".toList) false false).2
      "notes.txt".toList rfl rfl rfl (by decide)

/-- C9 counterexample: a refresh whose closure captured selection "A" can
complete after the user switched to "B"; with "A" still in the fetched list
the membership check passes, no reset happens, and the selection stays "B"
although no document of the fresh list carries it. -/
theorem fetchDocs_stale_selection :
    (fetchDocsSuccess ⟨[], "B", [], []⟩ "A"
        [⟨"A", "a.pdf", false, none⟩]).selectedDocId = "B" ∧
      ∀ d ∈ (fetchDocsSuccess ⟨[], "B", [], []⟩ "A"
        [⟨"A", "a.pdf", false, none⟩]).documents, d.doc_id ≠ "B" := by
  decide

/-- C9 (amended): after a completed document-list refresh whose captured
selection equals the selection at completion (no selection change while the
refresh was in flight), the selected document id is either the empty string
or the `doc_id` of some document in the freshly fetched list. -/
theorem fetchDocs_selection_valid (s : HomeState) (list : List DocumentSummary) :
    (fetchDocsSuccess s s.selectedDocId list).selectedDocId = "" ∨
      ∃ d ∈ (fetchDocsSuccess s s.selectedDocId list).documents,
        d.doc_id = (fetchDocsSuccess s s.selectedDocId list).selectedDocId := by
  unfold fetchDocsSuccess
  by_cases h : list.any (fun d => d.doc_id == s.selectedDocId)
  · right
    obtain ⟨d, hd, hbeq⟩ := List.any_eq_true.mp h
    exact ⟨d, by simpa using hd, by simpa [h] using hbeq⟩
  · left
    simp [h]

/-- C10 counterexample: an ask issued while document "A" was selected can
resolve after the user switches to "B"; its assistant message is then
appended to the freshly cleared list, so an answer produced for "A" is
displayed while "B" is selected. -/
theorem chat_cross_document_display :
    (resolveAsk
        (selectDoc (sendQuestion (selectDoc ⟨[], "", [], []⟩ "A") "q") "B")
        ⟨"A", "q"⟩ "ans").selectedDocId = "B" ∧
      (⟨Role.assistant, "ans", "A"⟩ : TaggedMessage) ∈
        (resolveAsk
          (selectDoc (sendQuestion (selectDoc ⟨[], "", [], []⟩ "A") "q") "B")
          ⟨"A", "q"⟩ "ans").messages ∧
      ("A" : String) ≠ "B" := by
  decide

/-- C10 (amended): whenever the selected document id changes, the chat
message list is reset to empty at that change; this does not by itself
prevent an ask already in flight from appending its messages afterward. -/
theorem chat_cleared_on_selection_change (s : HomeState) (id : String)
    (h : id ≠ s.selectedDocId) :
    (selectDoc s id).messages = [] := by
  simp [selectDoc, h]

theorem chat_cleared_on_selection_change_witness :
    ("A" : String) ≠ "" ∧
      (selectDoc ⟨[], "", [⟨Role.user, "hello", ""⟩], []⟩ "A").messages = [] :=
  ⟨by decide, chat_cleared_on_selection_change ⟨[], "", [⟨Role.user, "hello", ""⟩], []⟩
    "A" (by decide)⟩
